import Mathlib

/-!
Verification of the tari-crypto extended Pedersen commitment factory
(`src/ristretto/pedersen/extended_commitment_factory.rs`) and of the Ristretto
Schnorr signature scheme (`src/ristretto/ristretto_sig.rs`).

The underlying group arithmetic (curve25519-dalek's ristretto255) is an
external collaborator: the generator set is an ordered sequence of fixed,
independently chosen group elements with no known discrete-log relationship,
so the observable group is embedded as the free module over that basis.
A point is its coefficient vector over the twelve independent basis elements
(the value base H, the canonical Pedersen base G, and ten NUMS points), with
scalars in the field of integers modulo the Ristretto group order.
-/

/-- Order of the Ristretto prime-order group (the order of the curve25519
scalar field); group arithmetic at this order is supplied by the external
curve library. -/
def ristrettoOrder : ℕ := 2 ^ 252 + 27742317777372353535851937790883648493

instance : NeZero ristrettoOrder := ⟨by decide⟩

/-- A scalar: an element of the group's scalar field. -/
abbrev Scalar : Type := ZMod ristrettoOrder

/-- A group element, as its coefficient vector over the independent generator
basis (index 0: the value base H; index 1: the canonical Pedersen base G;
indices 2..11: the ten precomputed NUMS points). -/
abbrev Point : Type := Fin 12 → Scalar

/-- The i-th independent basis element of the group model. -/
def basisPoint (i : Fin 12) : Point := fun j => if j = i then 1 else 0

/-- The fixed Pedersen value base `H` (`RISTRETTO_PEDERSEN_H`). -/
def RISTRETTO_PEDERSEN_H : Point := basisPoint 0

/-- The canonical Pedersen blinding base `G` (`RISTRETTO_PEDERSEN_G`), also the
base point `G_0` used for public keys and signature nonces. -/
def RISTRETTO_PEDERSEN_G : Point := basisPoint 1

/-- Modelled from the spec: the precomputed table of NUMS generator points
(`RISTRETTO_NUMS_POINTS` in `ristretto::constants`, which is not among the
sources here); a table of independently chosen points, of which factories only
ever select indices 1 through 5. -/
def RISTRETTO_NUMS_POINTS : List Point :=
  [basisPoint 2, basisPoint 3, basisPoint 4, basisPoint 5, basisPoint 6,
   basisPoint 7, basisPoint 8, basisPoint 9, basisPoint 10, basisPoint 11]

/-- Modelled from the spec: compressed encodings are canonical and injective,
so the compressed tables are identified with their points; the factory
constructor only inspects this table's length and entries by index. -/
def RISTRETTO_NUMS_POINTS_COMPRESSED : List Point := RISTRETTO_NUMS_POINTS

/-- Compressed form of `RISTRETTO_PEDERSEN_G`, identified with the point. -/
def RISTRETTO_PEDERSEN_G_COMPRESSED : Point := RISTRETTO_PEDERSEN_G

/-- Compressed form of `RISTRETTO_PEDERSEN_H`, identified with the point. -/
def RISTRETTO_PEDERSEN_H_COMPRESSED : Point := RISTRETTO_PEDERSEN_H

/-- `bulletproofs_plus::generators::pedersen_gens::ExtensionDegree` (external
crate): the extension degree enum. Its numeric value (`as usize` in the
source) is the number of blinding factors of a commitment, with
`Zero = 1` through `Five = 6`. -/
inductive ExtensionDegree
  | Zero | One | Two | Three | Four | Five
deriving DecidableEq

/-- The numeric value of the extension degree enum (`extension_degree as
usize` in the source): the number of blinding factors. -/
def ExtensionDegree.toNat : ExtensionDegree → ℕ
  | .Zero => 1
  | .One => 2
  | .Two => 3
  | .Three => 4
  | .Four => 5
  | .Five => 6

/-- Modelled from the spec: the error kinds of `RangeProofError`
(`crate::errors`, not among the sources here). `InvalidExtensionDegree` is the
kind the factory source names `RangeProofError::ExtensionDegree`;
`InvalidInput` is the kind the spec reserves for malformed caller input;
`DecodingError` for malformed serialized data. -/
inductive RangeProofError
  | InvalidExtensionDegree (msg : String)
  | InvalidInput (msg : String)
  | DecodingError (msg : String)
deriving DecidableEq

/-- The message carried by a `RangeProofError` (`e.to_string()` in the
source). -/
def RangeProofError.msg : RangeProofError → String
  | .InvalidExtensionDegree m => m
  | .InvalidInput m => m
  | .DecodingError m => m

/-- Whether an error is of the `InvalidInput` kind. -/
def RangeProofError.isInvalidInput : RangeProofError → Bool
  | .InvalidInput _ => true
  | _ => false

/-- `bulletproofs_plus::PedersenGens` (external crate): the generator set held
by a factory. -/
structure PedersenGens where
  h_base : Point
  h_base_compressed : Point
  g_base_vec : List Point
  g_base_compressed_vec : List Point
  extension_degree : ExtensionDegree
deriving DecidableEq

/-- `RistrettoPoint::multiscalar_mul` (curve25519-dalek, external): the
multi-scalar multiplication `Σ sᵢ · Pᵢ`; iterators of different lengths are
truncated to the shorter one. -/
def multiscalarMul (ss : List Scalar) (ps : List Point) : Point :=
  (List.zipWith (fun s p => s • p) ss ps).sum

/-- Modelled from the spec: `PedersenGens::commit` of the external
bulletproofs-plus crate computes `v·H + Σ kᵢ·Gᵢ` by multi-scalar
multiplication and rejects a blinding vector whose length differs from the
extension degree (the spec: a mismatched length is "caught by the underlying
group-arithmetic call"). -/
def PedersenGens.commit (g : PedersenGens) (v : Scalar) (k : List Scalar) :
    Except String Point :=
  if k.length = g.extension_degree.toNat then
    Except.ok (v • g.h_base + multiscalarMul k g.g_base_vec)
  else
    Except.error "blinding vector length mismatch"

/-- Modelled from the spec: `HomomorphicCommitment` wraps a public key (a
group element) in a marker type distinguishing commitments from ordinary
public keys; equality is over the canonical encoding, i.e. over the
underlying point. `PedersenCommitment` is this wrapper over Ristretto. -/
structure HomomorphicCommitment where
  point : Point
deriving DecidableEq

/-- `PedersenCommitment = HomomorphicCommitment<RistrettoPublicKey>`. -/
abbrev PedersenCommitment : Type := HomomorphicCommitment

/-- Modelled from the spec: commitment addition is group-element addition. -/
instance : Add HomomorphicCommitment :=
  ⟨fun a b => ⟨a.point + b.point⟩⟩

/-- `ExtendedPedersenCommitmentFactory`
(src/ristretto/pedersen/extended_commitment_factory.rs): a newtype over the
generator set. -/
structure ExtendedPedersenCommitmentFactory where
  gens : PedersenGens
deriving DecidableEq

/-- `ExtendedPedersenCommitmentFactory::new_with_extension_degree`: fails when
the requested degree exceeds the precomputed NUMS tables, else selects
`RISTRETTO_PEDERSEN_G` followed by the NUMS points at indices
`1..extension_degree as usize` as blinding bases, with `RISTRETTO_PEDERSEN_H`
as value base. -/
def ExtendedPedersenCommitmentFactory.new_with_extension_degree
    (extension_degree : ExtensionDegree) :
    Except RangeProofError ExtendedPedersenCommitmentFactory :=
  if extension_degree.toNat > RISTRETTO_NUMS_POINTS.length ∨
      extension_degree.toNat > RISTRETTO_NUMS_POINTS_COMPRESSED.length then
    Except.error (RangeProofError.InvalidExtensionDegree
      "Not enough Ristretto NUMS points to construct the extended commitment factory")
  else
    Except.ok ⟨{ h_base := RISTRETTO_PEDERSEN_H,
                 h_base_compressed := RISTRETTO_PEDERSEN_H_COMPRESSED,
                 g_base_vec := RISTRETTO_PEDERSEN_G ::
                   (List.range' 1 (extension_degree.toNat - 1)).map
                     (fun i => RISTRETTO_NUMS_POINTS.getD i RISTRETTO_PEDERSEN_G),
                 g_base_compressed_vec := RISTRETTO_PEDERSEN_G_COMPRESSED ::
                   (List.range' 1 (extension_degree.toNat - 1)).map
                     (fun i => RISTRETTO_NUMS_POINTS_COMPRESSED.getD i
                       RISTRETTO_PEDERSEN_G_COMPRESSED),
                 extension_degree := extension_degree }⟩

/-- `ExtendedPedersenCommitmentFactory::commit` (trait
`ExtendedHomomorphicCommitmentFactory`): delegates to the generator set's
commit, mapping the underlying error into the `ExtensionDegree` error kind
(`.map_err(|e| RangeProofError::ExtensionDegree(e.to_string()))`). -/
def ExtendedPedersenCommitmentFactory.commit
    (f : ExtendedPedersenCommitmentFactory) (k_i : List Scalar) (v : Scalar) :
    Except RangeProofError PedersenCommitment :=
  match f.gens.commit v k_i with
  | Except.ok c => Except.ok ⟨c⟩
  | Except.error e => Except.error (RangeProofError.InvalidExtensionDegree e)

/-- `ExtendedPedersenCommitmentFactory::zero`: multiplies an all-zero scalar
vector of length `extension_degree + 1` against only the blinding generators
(one fewer entry); the intermediate `points` list including the value base is
built but never used, exactly as in the source. -/
def ExtendedPedersenCommitmentFactory.zero
    (f : ExtendedPedersenCommitmentFactory) : PedersenCommitment :=
  let extension_degree := f.gens.extension_degree.toNat
  let zero := List.replicate (extension_degree + 1) (0 : Scalar)
  let points := f.gens.h_base :: f.gens.g_base_vec
  let c := multiscalarMul zero f.gens.g_base_vec
  ⟨c⟩

/-- `ExtendedPedersenCommitmentFactory::open` (`open` is a Lean keyword):
recommits and compares for equality, returning the boolean outcome;
a commit error is rewrapped into the `ExtensionDegree` error kind. -/
def ExtendedPedersenCommitmentFactory.open'
    (f : ExtendedPedersenCommitmentFactory) (k_i : List Scalar) (v : Scalar)
    (commitment : PedersenCommitment) : Except RangeProofError Bool :=
  match f.commit k_i v with
  | Except.ok c_test => Except.ok (decide (commitment = c_test))
  | Except.error e => Except.error (RangeProofError.InvalidExtensionDegree e.msg)

/-- Modelled from the spec: little-endian interpretation of a byte digest as
an integer reduced modulo the group order (`Scalar::from_bytes_mod_order`,
reached through `SecretKey::from_bytes`). -/
def scalarFromBytes (bytes : List ℕ) : Scalar :=
  ((bytes.foldr (fun b acc => acc * 256 + b) 0 : ℕ) : Scalar)

/-- Modelled from the spec: a Schnorr signature is the pair of a public nonce
`R` and a response scalar `s` (the source's field name for the response is
`signature`); `RistrettoSchnorr = SchnorrSignature<RistrettoPublicKey,
RistrettoSecretKey>`. -/
structure SchnorrSignature where
  public_nonce : Point
  signature : Scalar
deriving DecidableEq

/-- Modelled from the spec: the signature error kind for an undecodable
challenge digest. -/
inductive SchnorrSignatureError
  | InvalidChallenge
deriving DecidableEq

/-- Modelled from the spec: signature addition is component-wise,
`(R1,s1) + (R2,s2) = (R1+R2, s1+s2)`. -/
instance : Add SchnorrSignature :=
  ⟨fun a b => ⟨a.public_nonce + b.public_nonce, a.signature + b.signature⟩⟩

/-- Modelled from the spec: the signing core on an already-reduced challenge
scalar: `public_nonce = secret_nonce · G_0`,
`response = secret_nonce + challenge · secret_key`. -/
def SchnorrSignature.signScalar (k r e : Scalar) : SchnorrSignature :=
  ⟨r • RISTRETTO_PEDERSEN_G, r + e * k⟩

/-- Modelled from the spec: `SchnorrSignature::sign` converts the challenge
digest to a scalar — failing with `InvalidChallenge` unless it is exactly 32
bytes wide, and reducing its integer value modulo the group order — then
signs with the signing core. -/
def SchnorrSignature.sign (k r : Scalar) (challenge : List ℕ) :
    Except SchnorrSignatureError SchnorrSignature :=
  if challenge.length = 32 then
    Except.ok (SchnorrSignature.signScalar k r (scalarFromBytes challenge))
  else
    Except.error SchnorrSignatureError.InvalidChallenge

/-- Modelled from the spec: `verify_challenge(public_key, challenge_scalar)`
checks `response · G_0 == public_nonce + challenge · public_key`. -/
def SchnorrSignature.verify_challenge (sig : SchnorrSignature)
    (public_key : Point) (challenge : Scalar) : Bool :=
  decide (sig.signature • RISTRETTO_PEDERSEN_G
    = sig.public_nonce + challenge • public_key)

/-- The sum of the public keys `k2ᵢ · G_0`, as added one by one to a
commitment in the source's `check_homomorphism_with_public_key` test. -/
def pubKeySum (k2 : List Scalar) : Point :=
  (k2.map (fun k => k • RISTRETTO_PEDERSEN_G)).sum

/-! ### Helper lemmas about the multi-scalar multiplication -/

lemma multiscalarMul_nil_left (ps : List Point) : multiscalarMul [] ps = 0 := rfl

lemma multiscalarMul_nil_right (ss : List Scalar) : multiscalarMul ss [] = 0 := by
  simp [multiscalarMul]

lemma multiscalarMul_cons (a : Scalar) (ss : List Scalar) (p : Point)
    (ps : List Point) :
    multiscalarMul (a :: ss) (p :: ps) = a • p + multiscalarMul ss ps := by
  simp [multiscalarMul]

/-- All-zero scalar vectors multiply to the identity, whatever the point list
and however the lengths compare. -/
lemma multiscalarMul_replicate_zero (n : ℕ) (ps : List Point) :
    multiscalarMul (List.replicate n (0 : Scalar)) ps = 0 := by
  induction ps generalizing n with
  | nil => exact multiscalarMul_nil_right _
  | cons p ps ih =>
      cases n with
      | zero => rfl
      | succ n =>
          rw [List.replicate_succ, multiscalarMul_cons, zero_smul, zero_add]
          exact ih n

/-- Multi-scalar multiplication is additive in the scalar vector. -/
lemma multiscalarMul_zipWith_add (k1 k2 : List Scalar) (ps : List Point)
    (h : k1.length = k2.length) :
    multiscalarMul (List.zipWith (· + ·) k1 k2) ps
      = multiscalarMul k1 ps + multiscalarMul k2 ps := by
  induction k1 generalizing k2 ps with
  | nil =>
      have : k2 = [] := by
        cases k2 with
        | nil => rfl
        | cons b k2 => simp at h
      subst this
      simp [multiscalarMul_nil_left]
  | cons a k1 ih =>
      cases k2 with
      | nil => simp at h
      | cons b k2 =>
          cases ps with
          | nil => simp [multiscalarMul_nil_right]
          | cons p ps =>
              rw [List.zipWith_cons_cons, multiscalarMul_cons,
                multiscalarMul_cons, multiscalarMul_cons,
                ih k2 ps (by simpa using h), add_smul]
              abel

/-- Evaluating a multi-scalar multiplication over basis points at an index
outside the basis-index list gives zero. -/
lemma multiscalarMul_basis_apply_notMem (ids : List (Fin 12)) (k : List Scalar)
    (j : Fin 12) (hj : j ∉ ids) :
    multiscalarMul k (ids.map basisPoint) j = 0 := by
  induction ids generalizing k with
  | nil => simp [multiscalarMul_nil_right]
  | cons i ids ih =>
      cases k with
      | nil => simp [multiscalarMul_nil_left]
      | cons a k =>
          have hji : j ≠ i := fun hc => hj (hc ▸ List.mem_cons_self i ids)
          have hj2 : j ∉ ids := fun hc => hj (List.mem_cons_of_mem i hc)
          rw [List.map_cons, multiscalarMul_cons]
          simp [Pi.add_apply, Pi.smul_apply, smul_eq_mul, basisPoint, hji,
            ih k hj2]

/-- Over a duplicate-free basis-index list, the scalar vector of a
multi-scalar multiplication is uniquely determined. -/
lemma multiscalarMul_basis_inj (ids : List (Fin 12)) (hnd : ids.Nodup)
    (k k' : List Scalar) (hk : k.length = ids.length)
    (hk' : k'.length = ids.length)
    (heq : multiscalarMul k (ids.map basisPoint)
      = multiscalarMul k' (ids.map basisPoint)) : k = k' := by
  induction ids generalizing k k' with
  | nil =>
      rw [List.length_nil, List.length_eq_zero] at hk hk'
      rw [hk, hk']
  | cons i ids ih =>
      cases k with
      | nil => simp at hk
      | cons a k =>
          cases k' with
          | nil => simp at hk'
          | cons b k' =>
              have hi : i ∉ ids := (List.nodup_cons.mp hnd).1
              rw [List.map_cons, multiscalarMul_cons, multiscalarMul_cons]
                at heq
              have hab : a = b := by
                have h0 := congrFun heq i
                simp [Pi.add_apply, Pi.smul_apply, smul_eq_mul, basisPoint,
                  multiscalarMul_basis_apply_notMem ids k i hi,
                  multiscalarMul_basis_apply_notMem ids k' i hi] at h0
                exact h0
              subst hab
              have htail := add_left_cancel heq
              rw [ih (List.nodup_cons.mp hnd).2 k k' (by simpa using hk)
                (by simpa using hk') htail]

/-! ### Normal form of a constructed factory -/

/-- The payload `new_with_extension_degree` returns on success (its
else-branch, verbatim). -/
def factoryAt (d : ExtensionDegree) : ExtendedPedersenCommitmentFactory :=
  ⟨{ h_base := RISTRETTO_PEDERSEN_H,
     h_base_compressed := RISTRETTO_PEDERSEN_H_COMPRESSED,
     g_base_vec := RISTRETTO_PEDERSEN_G ::
       (List.range' 1 (d.toNat - 1)).map
         (fun i => RISTRETTO_NUMS_POINTS.getD i RISTRETTO_PEDERSEN_G),
     g_base_compressed_vec := RISTRETTO_PEDERSEN_G_COMPRESSED ::
       (List.range' 1 (d.toNat - 1)).map
         (fun i => RISTRETTO_NUMS_POINTS_COMPRESSED.getD i
           RISTRETTO_PEDERSEN_G_COMPRESSED),
     extension_degree := d }⟩

/-- The constructor succeeds at every extension degree of the enum, returning
`factoryAt`. -/
lemma new_with_extension_degree_eq (d : ExtensionDegree) :
    ExtendedPedersenCommitmentFactory.new_with_extension_degree d
      = Except.ok (factoryAt d) := by
  cases d <;> rfl

/-- The basis indices of the blinding generators a factory of degree `d`
selects: index 1 is `G`, and indices `2 + i` are the NUMS points `i` for
`i = 1..d.toNat - 1`. -/
def idxList (d : ExtensionDegree) : List (Fin 12) :=
  match d with
  | .Zero => [1]
  | .One => [1, 3]
  | .Two => [1, 3, 4]
  | .Three => [1, 3, 4, 5]
  | .Four => [1, 3, 4, 5, 6]
  | .Five => [1, 3, 4, 5, 6, 7]

lemma factoryAt_g_base_vec (d : ExtensionDegree) :
    (factoryAt d).gens.g_base_vec = (idxList d).map basisPoint := by
  cases d <;> rfl

lemma idxList_nodup (d : ExtensionDegree) : (idxList d).Nodup := by
  cases d <;> decide

lemma idxList_length (d : ExtensionDegree) : (idxList d).length = d.toNat := by
  cases d <;> rfl

lemma zero_notMem_idxList (d : ExtensionDegree) : (0 : Fin 12) ∉ idxList d := by
  cases d <;> decide

/-- The value a constructed factory commits to: `v·H + Σ kᵢ·Gᵢ` over the
factory's basis indices. -/
def commitPt (d : ExtensionDegree) (k : List Scalar) (v : Scalar) : Point :=
  v • RISTRETTO_PEDERSEN_H + multiscalarMul k ((idxList d).map basisPoint)

lemma commit_factoryAt (d : ExtensionDegree) (k : List Scalar) (v : Scalar)
    (hk : k.length = d.toNat) :
    (factoryAt d).commit k v = Except.ok ⟨commitPt d k v⟩ := by
  have hg : (factoryAt d).gens.commit v k = Except.ok (commitPt d k v) := by
    unfold PedersenGens.commit
    have hd : (factoryAt d).gens.extension_degree = d := by cases d <;> rfl
    have hh : (factoryAt d).gens.h_base = RISTRETTO_PEDERSEN_H := by
      cases d <;> rfl
    rw [hd, if_pos hk, hh, factoryAt_g_base_vec]
    rfl
  unfold ExtendedPedersenCommitmentFactory.commit
  rw [hg]

lemma commit_factoryAt_err (d : ExtensionDegree) (k : List Scalar) (v : Scalar)
    (hk : k.length ≠ d.toNat) :
    (factoryAt d).commit k v = Except.error
      (RangeProofError.InvalidExtensionDegree
        "blinding vector length mismatch") := by
  have hg : (factoryAt d).gens.commit v k
      = Except.error "blinding vector length mismatch" := by
    unfold PedersenGens.commit
    have hd : (factoryAt d).gens.extension_degree = d := by cases d <;> rfl
    rw [hd, if_neg hk]
  unfold ExtendedPedersenCommitmentFactory.commit
  rw [hg]

lemma open_factoryAt (d : ExtensionDegree) (k : List Scalar) (v : Scalar)
    (c : PedersenCommitment) (hk : k.length = d.toNat) :
    (factoryAt d).open' k v c = Except.ok (decide (c = ⟨commitPt d k v⟩)) := by
  unfold ExtendedPedersenCommitmentFactory.open'
  rw [commit_factoryAt d k v hk]

/-- A commitment of a constructed factory determines its opening. -/
lemma commitPt_inj (d : ExtensionDegree) (k k' : List Scalar) (v v' : Scalar)
    (hk : k.length = d.toNat) (hk' : k'.length = d.toNat)
    (heq : commitPt d k v = commitPt d k' v') : k = k' ∧ v = v' := by
  unfold commitPt at heq
  have hz := zero_notMem_idxList d
  have hv : v = v' := by
    have h0 := congrFun heq 0
    simp [Pi.add_apply, Pi.smul_apply, smul_eq_mul, RISTRETTO_PEDERSEN_H,
      basisPoint, multiscalarMul_basis_apply_notMem _ _ _ hz] at h0
    exact h0
  subst hv
  refine ⟨?_, rfl⟩
  have htail := add_left_cancel heq
  exact multiscalarMul_basis_inj (idxList d) (idxList_nodup d) k k'
    (by rw [hk, idxList_length]) (by rw [hk', idxList_length]) htail

/-- Committing to elementwise-added openings is adding the committed points. -/
lemma commitPt_add (d : ExtensionDegree) (k1 k2 : List Scalar) (v1 v2 : Scalar)
    (h : k1.length = k2.length) :
    commitPt d (List.zipWith (· + ·) k1 k2) (v1 + v2)
      = commitPt d k1 v1 + commitPt d k2 v2 := by
  unfold commitPt
  rw [multiscalarMul_zipWith_add k1 k2 _ h, add_smul]
  abel

lemma factoryAt_g_base_vec_length (d : ExtensionDegree) :
    (factoryAt d).gens.g_base_vec.length = d.toNat := by
  rw [factoryAt_g_base_vec, List.length_map, idxList_length]

/-- The blinding vector used to break public-key homomorphism at nonzero
extension degree: zero everywhere except a one at position 1 (the first
NUMS-backed slot). -/
def spoilVector (d : ExtensionDegree) : List Scalar :=
  0 :: 1 :: List.replicate (d.toNat - 2) 0

lemma spoilVector_length (d : ExtensionDegree) (hd : d ≠ ExtensionDegree.Zero) :
    (spoilVector d).length = d.toNat := by
  cases d <;> first | (exact absurd rfl hd) | rfl

/-- Adding the public keys of the spoil vector is not the same as extending
the committed blinding factors by it, at any nonzero degree. -/
lemma pubKeySum_spoil_ne (d : ExtensionDegree)
    (hd : d ≠ ExtensionDegree.Zero) :
    pubKeySum (spoilVector d) ≠ commitPt d (spoilVector d) 0 := by
  cases d <;> first | (exact absurd rfl hd) | decide

/-! ### Claims about the extended commitment factory -/

/-- C1: for every extension degree and every two openings whose blinding
vectors have as many entries as the factory has blinding generators
(`extension_degree as usize`), the commitments add to the commitment of the
elementwise-added openings, and the sum opens as true under the combined
witness. -/
theorem commit_homomorphism (d : ExtensionDegree)
    (f : ExtendedPedersenCommitmentFactory)
    (hf : ExtendedPedersenCommitmentFactory.new_with_extension_degree d
      = Except.ok f)
    (k1 k2 : List Scalar) (v1 v2 : Scalar)
    (h1 : k1.length = d.toNat) (h2 : k2.length = d.toNat) :
    ∃ c1 c2 c12,
      f.commit k1 v1 = Except.ok c1 ∧
      f.commit k2 v2 = Except.ok c2 ∧
      f.commit (List.zipWith (· + ·) k1 k2) (v1 + v2) = Except.ok c12 ∧
      c1 + c2 = c12 ∧
      f.open' (List.zipWith (· + ·) k1 k2) (v1 + v2) (c1 + c2)
        = Except.ok true := by
  rw [new_with_extension_degree_eq] at hf
  injection hf with hf
  subst hf
  have hlen : (List.zipWith (· + ·) k1 k2).length = d.toNat := by
    rw [List.length_zipWith, h1, h2, min_self]
  have hadd : (⟨commitPt d k1 v1⟩ + ⟨commitPt d k2 v2⟩ : PedersenCommitment)
      = ⟨commitPt d (List.zipWith (· + ·) k1 k2) (v1 + v2)⟩ := by
    show (⟨commitPt d k1 v1 + commitPt d k2 v2⟩ : PedersenCommitment) = _
    rw [← commitPt_add d k1 k2 v1 v2 (h1.trans h2.symm)]
  refine ⟨_, _, _, commit_factoryAt d k1 v1 h1, commit_factoryAt d k2 v2 h2,
    commit_factoryAt d _ _ hlen, hadd, ?_⟩
  rw [open_factoryAt d _ _ _ hlen, hadd, decide_eq_true rfl]

/-- C1 witness at degree `One` with openings `([1,2],5)` and `([3,4],6)`. -/
theorem commit_homomorphism_witness :
    ∃ c1 c2 c12,
      (factoryAt ExtensionDegree.One).commit [1, 2] 5 = Except.ok c1 ∧
      (factoryAt ExtensionDegree.One).commit [3, 4] 6 = Except.ok c2 ∧
      (factoryAt ExtensionDegree.One).commit
        (List.zipWith (· + ·) [1, 2] [3, 4]) (5 + 6) = Except.ok c12 ∧
      c1 + c2 = c12 ∧
      (factoryAt ExtensionDegree.One).open'
        (List.zipWith (· + ·) [1, 2] [3, 4]) (5 + 6) (c1 + c2)
        = Except.ok true :=
  commit_homomorphism ExtensionDegree.One (factoryAt ExtensionDegree.One) rfl
    [1, 2] [3, 4] 5 6 rfl rfl

/-- C4: at every extension degree, a commitment opens as true exactly under
its own opening: a different value or a different (equal-length) blinding
vector opens as the boolean false, `Except.ok false`, not as an error. -/
theorem commitment_open_correct (d : ExtensionDegree)
    (f : ExtendedPedersenCommitmentFactory)
    (hf : ExtendedPedersenCommitmentFactory.new_with_extension_degree d
      = Except.ok f)
    (k : List Scalar) (v : Scalar) (hk : k.length = d.toNat) :
    ∃ c, f.commit k v = Except.ok c ∧
      f.open' k v c = Except.ok true ∧
      (∀ v', v' ≠ v → f.open' k v' c = Except.ok false) ∧
      (∀ k', k'.length = d.toNat → k' ≠ k →
        f.open' k' v c = Except.ok false) := by
  rw [new_with_extension_degree_eq] at hf
  injection hf with hf
  subst hf
  refine ⟨⟨commitPt d k v⟩, commit_factoryAt d k v hk, ?_, ?_, ?_⟩
  · rw [open_factoryAt d k v _ hk, decide_eq_true rfl]
  · intro v' hv'
    rw [open_factoryAt d k v' _ hk]
    have hne : (⟨commitPt d k v⟩ : PedersenCommitment) ≠ ⟨commitPt d k v'⟩ := by
      intro hc
      have h2 : commitPt d k v = commitPt d k v' :=
        congrArg HomomorphicCommitment.point hc
      exact hv' ((commitPt_inj d k k v v' hk hk h2).2.symm)
    rw [decide_eq_false hne]
  · intro k' hk' hne'
    rw [open_factoryAt d k' v _ hk']
    have hne : (⟨commitPt d k v⟩ : PedersenCommitment) ≠ ⟨commitPt d k' v⟩ := by
      intro hc
      have h2 : commitPt d k v = commitPt d k' v :=
        congrArg HomomorphicCommitment.point hc
      exact hne' ((commitPt_inj d k k' v v hk hk' h2).1.symm)
    rw [decide_eq_false hne]

/-- C4 witness at degree `One` with opening `([1,2],3)`. -/
theorem commitment_open_correct_witness :
    ∃ c, (factoryAt ExtensionDegree.One).commit [1, 2] 3 = Except.ok c ∧
      (factoryAt ExtensionDegree.One).open' [1, 2] 3 c = Except.ok true ∧
      (∀ v', v' ≠ 3 →
        (factoryAt ExtensionDegree.One).open' [1, 2] v' c = Except.ok false) ∧
      (∀ k', k'.length = ExtensionDegree.One.toNat → k' ≠ [1, 2] →
        (factoryAt ExtensionDegree.One).open' k' 3 c = Except.ok false) :=
  commitment_open_correct ExtensionDegree.One (factoryAt ExtensionDegree.One)
    rfl [1, 2] 3 rfl

/-- C6: `zero()` is the commitment whose point is the group identity, equal to
committing to value 0 under the all-zero blinding vector, whatever the
extension degree — even though the scalar vector passed to the multi-scalar
multiplication has one more entry than the point vector (the generator list
the source builds alongside is never used). -/
theorem zero_commitment_identity (d : ExtensionDegree)
    (f : ExtendedPedersenCommitmentFactory)
    (hf : ExtendedPedersenCommitmentFactory.new_with_extension_degree d
      = Except.ok f) :
    f.zero.point = 0 ∧
    f.commit (List.replicate d.toNat 0) 0 = Except.ok f.zero ∧
    (List.replicate (d.toNat + 1) (0 : Scalar)).length
      = f.gens.g_base_vec.length + 1 := by
  rw [new_with_extension_degree_eq] at hf
  injection hf with hf
  subst hf
  have hzero : (factoryAt d).zero = ⟨0⟩ := by
    show (⟨multiscalarMul
      (List.replicate ((factoryAt d).gens.extension_degree.toNat + 1) 0)
      (factoryAt d).gens.g_base_vec⟩ : PedersenCommitment) = ⟨0⟩
    rw [multiscalarMul_replicate_zero]
  refine ⟨by rw [hzero], ?_, ?_⟩
  · rw [commit_factoryAt d _ 0 (List.length_replicate _ _), hzero]
    have hpt : commitPt d (List.replicate d.toNat 0) 0 = 0 := by
      unfold commitPt
      rw [zero_smul, multiscalarMul_replicate_zero, add_zero]
    rw [hpt]
  · rw [List.length_replicate, factoryAt_g_base_vec_length]

/-- C6 witness at degree `Two`. -/
theorem zero_commitment_identity_witness :
    (factoryAt ExtensionDegree.Two).zero.point = 0 ∧
    (factoryAt ExtensionDegree.Two).commit
      (List.replicate ExtensionDegree.Two.toNat 0) 0
      = Except.ok (factoryAt ExtensionDegree.Two).zero ∧
    (List.replicate (ExtensionDegree.Two.toNat + 1) (0 : Scalar)).length
      = (factoryAt ExtensionDegree.Two).gens.g_base_vec.length + 1 :=
  zero_commitment_identity ExtensionDegree.Two (factoryAt ExtensionDegree.Two)
    rfl

/-- C7: construction fails with the `InvalidExtensionDegree` kind exactly when
the requested degree exceeds the precomputed NUMS table, and succeeds for
every degree within that bound (which all degrees of the enum are). -/
theorem new_factory_degree_bound (d : ExtensionDegree) :
    ((∃ m, ExtendedPedersenCommitmentFactory.new_with_extension_degree d
        = Except.error (RangeProofError.InvalidExtensionDegree m))
      ↔ RISTRETTO_NUMS_POINTS.length < d.toNat) ∧
    (d.toNat ≤ RISTRETTO_NUMS_POINTS.length →
      ∃ f, ExtendedPedersenCommitmentFactory.new_with_extension_degree d
        = Except.ok f) := by
  constructor
  · constructor
    · rintro ⟨m, hm⟩
      rw [new_with_extension_degree_eq] at hm
      exact absurd hm (by simp)
    · intro h
      exact absurd h (by cases d <;> decide)
  · intro _
    exact ⟨_, new_with_extension_degree_eq d⟩

/-- C7 witness: degree `Five` is within the table bound and constructs. -/
theorem new_factory_degree_bound_witness :
    ∃ f, ExtendedPedersenCommitmentFactory.new_with_extension_degree
      ExtensionDegree.Five = Except.ok f :=
  (new_factory_degree_bound ExtensionDegree.Five).2 (by decide)

/-- C8 counterexample: at degree `Zero` (one blinding factor), committing with
an empty blinding vector returns an error of the `InvalidExtensionDegree`
kind — not of the `InvalidInput` kind the claim names. -/
theorem commit_length_error_kind_cex :
    (ExtendedPedersenCommitmentFactory.new_with_extension_degree
        ExtensionDegree.Zero).map (fun f => f.commit [] 5)
      = Except.ok (Except.error (RangeProofError.InvalidExtensionDegree
          "blinding vector length mismatch")) ∧
    RangeProofError.isInvalidInput (RangeProofError.InvalidExtensionDegree
      "blinding vector length mismatch") = false :=
  ⟨rfl, rfl⟩

/-- C8 amended: a blinding vector whose length differs from the factory's
blinding-factor count makes `commit` return an error — neither a panic nor a
commitment — but the error is of the `InvalidExtensionDegree` kind (the
factory maps the underlying length-mismatch error into
`RangeProofError::ExtensionDegree`), not `InvalidInput`. -/
theorem commit_length_error_amended (d : ExtensionDegree)
    (f : ExtendedPedersenCommitmentFactory)
    (hf : ExtendedPedersenCommitmentFactory.new_with_extension_degree d
      = Except.ok f)
    (k : List Scalar) (v : Scalar) (hk : k.length ≠ d.toNat) :
    f.commit k v = Except.error (RangeProofError.InvalidExtensionDegree
      "blinding vector length mismatch") ∧
    ∀ e, f.commit k v = Except.error e → e.isInvalidInput = false := by
  rw [new_with_extension_degree_eq] at hf
  injection hf with hf
  subst hf
  refine ⟨commit_factoryAt_err d k v hk, ?_⟩
  intro e he
  rw [commit_factoryAt_err d k v hk] at he
  injection he with he
  rw [← he]
  rfl

/-- C8 amended witness: the empty blinding vector at degree `Zero`. -/
theorem commit_length_error_amended_witness :
    (factoryAt ExtensionDegree.Zero).commit [] 5
      = Except.error (RangeProofError.InvalidExtensionDegree
          "blinding vector length mismatch") ∧
    ∀ e, (factoryAt ExtensionDegree.Zero).commit [] 5 = Except.error e →
      e.isInvalidInput = false :=
  commit_length_error_amended ExtensionDegree.Zero
    (factoryAt ExtensionDegree.Zero) rfl [] 5 (by decide)

/-- C10: every constructed factory has exactly `extension_degree as usize`
blinding generators, the first being the canonical `RISTRETTO_PEDERSEN_G`, the
value base being `RISTRETTO_PEDERSEN_H`, the rest being the NUMS points at
indices 1 through `degree - 1`; the NUMS point at index 0 never appears among
the blinding generators. -/
theorem factory_generator_invariant (d : ExtensionDegree)
    (f : ExtendedPedersenCommitmentFactory)
    (hf : ExtendedPedersenCommitmentFactory.new_with_extension_degree d
      = Except.ok f) :
    f.gens.g_base_vec.length = d.toNat ∧
    f.gens.g_base_vec.getD 0 0 = RISTRETTO_PEDERSEN_G ∧
    f.gens.h_base = RISTRETTO_PEDERSEN_H ∧
    (∀ i, i < d.toNat → 1 ≤ i →
      f.gens.g_base_vec.getD i 0 = RISTRETTO_NUMS_POINTS.getD i 0) ∧
    RISTRETTO_NUMS_POINTS.getD 0 0 ∉ f.gens.g_base_vec := by
  rw [new_with_extension_degree_eq] at hf
  injection hf with hf
  subst hf
  cases d <;> exact ⟨rfl, rfl, rfl, by decide, by decide⟩

/-- C10 witness at degree `Five` (all NUMS-backed slots populated). -/
theorem factory_generator_invariant_witness :
    (factoryAt ExtensionDegree.Five).gens.g_base_vec.length
      = ExtensionDegree.Five.toNat ∧
    (factoryAt ExtensionDegree.Five).gens.g_base_vec.getD 0 0
      = RISTRETTO_PEDERSEN_G ∧
    (factoryAt ExtensionDegree.Five).gens.h_base = RISTRETTO_PEDERSEN_H ∧
    (∀ i, i < ExtensionDegree.Five.toNat → 1 ≤ i →
      (factoryAt ExtensionDegree.Five).gens.g_base_vec.getD i 0
        = RISTRETTO_NUMS_POINTS.getD i 0) ∧
    RISTRETTO_NUMS_POINTS.getD 0 0 ∉
      (factoryAt ExtensionDegree.Five).gens.g_base_vec :=
  factory_generator_invariant ExtensionDegree.Five
    (factoryAt ExtensionDegree.Five) rfl

/-- C5: at extension degree `Zero`, adding a public key `k2·G₀` to a
commitment of `([k1], v1)` gives exactly the commitment of `([k1+k2], v1)`;
at every nonzero extension degree this equivalence fails to hold: for every
opening there is a public-key vector (one key per blinding factor, here the
`spoilVector`) whose addition does not equal the commitment to the
elementwise-extended blinding vector. -/
theorem public_key_homomorphism_degree (d : ExtensionDegree)
    (f : ExtendedPedersenCommitmentFactory)
    (hf : ExtendedPedersenCommitmentFactory.new_with_extension_degree d
      = Except.ok f) :
    (d = ExtensionDegree.Zero → ∀ k1 k2 v1 : Scalar,
      ∃ c1 c2, f.commit [k1] v1 = Except.ok c1 ∧
        f.commit [k1 + k2] v1 = Except.ok c2 ∧
        c1.point + k2 • RISTRETTO_PEDERSEN_G = c2.point) ∧
    (d ≠ ExtensionDegree.Zero → ∀ (k1 : List Scalar) (v1 : Scalar),
      k1.length = d.toNat →
      ∃ k2 : List Scalar, k2.length = d.toNat ∧
        ∀ c1 c2, f.commit k1 v1 = Except.ok c1 →
          f.commit (List.zipWith (· + ·) k1 k2) v1 = Except.ok c2 →
          c1.point + pubKeySum k2 ≠ c2.point) := by
  rw [new_with_extension_degree_eq] at hf
  injection hf with hf
  subst hf
  constructor
  · rintro rfl k1 k2 v1
    refine ⟨_, _, commit_factoryAt ExtensionDegree.Zero [k1] v1 rfl,
      commit_factoryAt ExtensionDegree.Zero [k1 + k2] v1 rfl, ?_⟩
    show commitPt ExtensionDegree.Zero [k1] v1 + k2 • RISTRETTO_PEDERSEN_G
      = commitPt ExtensionDegree.Zero [k1 + k2] v1
    unfold commitPt
    funext j
    simp [idxList, multiscalarMul, RISTRETTO_PEDERSEN_G, RISTRETTO_PEDERSEN_H,
      basisPoint, Pi.add_apply, Pi.smul_apply, smul_eq_mul]
    split_ifs <;> ring
  · intro hd k1 v1 hk1
    refine ⟨spoilVector d, spoilVector_length d hd, ?_⟩
    intro c1 c2 h1 h2
    rw [commit_factoryAt d k1 v1 hk1] at h1
    have hlen2 : (List.zipWith (· + ·) k1 (spoilVector d)).length = d.toNat := by
      rw [List.length_zipWith, hk1, spoilVector_length d hd, min_self]
    rw [commit_factoryAt d _ v1 hlen2] at h2
    injection h1 with h1
    injection h2 with h2
    subst h1
    subst h2
    intro hc
    change commitPt d k1 v1 + pubKeySum (spoilVector d)
      = commitPt d (List.zipWith (· + ·) k1 (spoilVector d)) v1 at hc
    have hadd := commitPt_add d k1 (spoilVector d) v1 0
      (by rw [hk1, spoilVector_length d hd])
    rw [add_zero] at hadd
    rw [hadd] at hc
    exact pubKeySum_spoil_ne d hd (add_left_cancel hc)

/-- C5 witness: the nonzero-degree failure at degree `One` with the zero
opening. -/
theorem public_key_homomorphism_degree_witness :
    ∃ k2 : List Scalar, k2.length = ExtensionDegree.One.toNat ∧
      ∀ c1 c2, (factoryAt ExtensionDegree.One).commit [0, 0] 0 = Except.ok c1 →
        (factoryAt ExtensionDegree.One).commit
          (List.zipWith (· + ·) [0, 0] k2) 0 = Except.ok c2 →
        c1.point + pubKeySum k2 ≠ c2.point :=
  (public_key_homomorphism_degree ExtensionDegree.One
    (factoryAt ExtensionDegree.One) rfl).2 (by decide) [0, 0] 0 rfl

/-! ### Claims about the Schnorr signature scheme -/

/-- C2 counterexample: the claim's "verification returns false for a public
key not equal to k·G₀, and false for a different challenge" fails as stated.
With challenge 0, the signature of k = 1 verifies under the identity point,
which is not 1·G₀; and with secret key 0, the signature for challenge 3
verifies under the (correct) public key with the different challenge 7. -/
theorem schnorr_verify_mismatch_cex :
    (SchnorrSignature.verify_challenge (SchnorrSignature.signScalar 1 0 0) 0 0
        = true ∧
      (0 : Point) ≠ (1 : Scalar) • RISTRETTO_PEDERSEN_G) ∧
    (SchnorrSignature.verify_challenge (SchnorrSignature.signScalar 0 5 3)
        ((0 : Scalar) • RISTRETTO_PEDERSEN_G) 7 = true ∧
      (7 : Scalar) ≠ (3 : Scalar)) := by
  decide

/-- C2 amended: `sign(k, r, e)` produces `R = r·G₀` and `s = r + e·k`, and
`verify_challenge(k·G₀, e)` is true on it; verification is false for a public
key other than `k·G₀` provided the challenge scalar is invertible modulo the
group order (equivalently nonzero, the order being prime), and false for a
challenge other than `e` provided the secret key is invertible. -/
theorem schnorr_sign_verify_amended (k r e ep : Scalar) (P : Point) :
    (SchnorrSignature.signScalar k r e).public_nonce
      = r • RISTRETTO_PEDERSEN_G ∧
    (SchnorrSignature.signScalar k r e).signature = r + e * k ∧
    SchnorrSignature.verify_challenge (SchnorrSignature.signScalar k r e)
      (k • RISTRETTO_PEDERSEN_G) e = true ∧
    (IsUnit e → P ≠ k • RISTRETTO_PEDERSEN_G →
      SchnorrSignature.verify_challenge (SchnorrSignature.signScalar k r e)
        P e = false) ∧
    (IsUnit k → ep ≠ e →
      SchnorrSignature.verify_challenge (SchnorrSignature.signScalar k r e)
        (k • RISTRETTO_PEDERSEN_G) ep = false) := by
  refine ⟨rfl, rfl, ?_, ?_, ?_⟩
  · unfold SchnorrSignature.verify_challenge SchnorrSignature.signScalar
    refine decide_eq_true ?_
    funext j
    simp [Pi.add_apply, Pi.smul_apply, smul_eq_mul]
    ring
  · intro he hne
    unfold SchnorrSignature.verify_challenge SchnorrSignature.signScalar
    refine decide_eq_false ?_
    intro heq
    apply hne
    funext j
    have h1 := congrFun heq j
    simp [Pi.add_apply, Pi.smul_apply, smul_eq_mul] at h1
    have h1' : r * RISTRETTO_PEDERSEN_G j
          + e * (k * RISTRETTO_PEDERSEN_G j)
        = r * RISTRETTO_PEDERSEN_G j + e * P j := by
      calc r * RISTRETTO_PEDERSEN_G j + e * (k * RISTRETTO_PEDERSEN_G j)
          = (r + e * k) * RISTRETTO_PEDERSEN_G j := by ring
        _ = r * RISTRETTO_PEDERSEN_G j + e * P j := h1
    have h2 := he.mul_left_cancel (add_left_cancel h1')
    show P j = (k • RISTRETTO_PEDERSEN_G) j
    rw [Pi.smul_apply, smul_eq_mul]
    exact h2.symm
  · intro hk hne
    unfold SchnorrSignature.verify_challenge SchnorrSignature.signScalar
    refine decide_eq_false ?_
    intro heq
    apply hne
    have h1 := congrFun heq 1
    have hG : RISTRETTO_PEDERSEN_G 1 = 1 := by decide
    simp [Pi.add_apply, Pi.smul_apply, smul_eq_mul, hG] at h1
    have h1' : r + k * e = r + k * ep := by
      calc r + k * e = r + e * k := by ring
        _ = r + k * ep := by rw [h1]; ring
    exact (hk.mul_left_cancel (add_left_cancel h1')).symm

/-- C2 amended witness: key 1, nonce 0, challenge 1, wrong key 0, wrong
challenge 2. -/
theorem schnorr_sign_verify_amended_witness :
    SchnorrSignature.verify_challenge (SchnorrSignature.signScalar 1 0 1)
      ((1 : Scalar) • RISTRETTO_PEDERSEN_G) 1 = true ∧
    SchnorrSignature.verify_challenge (SchnorrSignature.signScalar 1 0 1)
      0 1 = false ∧
    SchnorrSignature.verify_challenge (SchnorrSignature.signScalar 1 0 1)
      ((1 : Scalar) • RISTRETTO_PEDERSEN_G) 2 = false := by
  obtain ⟨-, -, h3, h4, h5⟩ := schnorr_sign_verify_amended 1 0 1 2 0
  exact ⟨h3, h4 isUnit_one (by decide), h5 isUnit_one (by decide)⟩

/-- C3 counterexample: the "only if" direction of the aggregation law fails
as stated. Two signatures over the different challenges 1 and 3 (keys 1 and
1, nonces 0 and 0) aggregate to a signature that verifies against the summed
public keys under challenge 2, which neither component signed. -/
theorem signature_aggregation_iff_cex :
    SchnorrSignature.verify_challenge
      (SchnorrSignature.signScalar 1 0 1 + SchnorrSignature.signScalar 1 0 3)
      ((1 : Scalar) • RISTRETTO_PEDERSEN_G
        + (1 : Scalar) • RISTRETTO_PEDERSEN_G) 2 = true ∧
    (1 : Scalar) ≠ (2 : Scalar) ∧ (3 : Scalar) ≠ (2 : Scalar) := by
  decide

/-- C3 amended: signature addition is component-wise, and whenever both
components signed the same challenge with key pairs `(k1, P1)` and
`(k2, P2)`, the aggregate verifies against `P1 + P2` and that challenge (the
converse implication does not hold). -/
theorem signature_aggregation_amended (k1 r1 k2 r2 e : Scalar) :
    (SchnorrSignature.signScalar k1 r1 e
        + SchnorrSignature.signScalar k2 r2 e).public_nonce
      = (SchnorrSignature.signScalar k1 r1 e).public_nonce
        + (SchnorrSignature.signScalar k2 r2 e).public_nonce ∧
    (SchnorrSignature.signScalar k1 r1 e
        + SchnorrSignature.signScalar k2 r2 e).signature
      = (SchnorrSignature.signScalar k1 r1 e).signature
        + (SchnorrSignature.signScalar k2 r2 e).signature ∧
    SchnorrSignature.verify_challenge
      (SchnorrSignature.signScalar k1 r1 e + SchnorrSignature.signScalar k2 r2 e)
      (k1 • RISTRETTO_PEDERSEN_G + k2 • RISTRETTO_PEDERSEN_G) e = true := by
  refine ⟨rfl, rfl, ?_⟩
  unfold SchnorrSignature.verify_challenge
  refine decide_eq_true ?_
  show ((r1 + e * k1) + (r2 + e * k2)) • RISTRETTO_PEDERSEN_G
    = (r1 • RISTRETTO_PEDERSEN_G + r2 • RISTRETTO_PEDERSEN_G)
      + e • (k1 • RISTRETTO_PEDERSEN_G + k2 • RISTRETTO_PEDERSEN_G)
  funext j
  simp [Pi.add_apply, Pi.smul_apply, smul_eq_mul]
  ring

/-- C9: `sign` succeeds on every challenge digest of the expected 32-byte
width, reducing the digest's integer value modulo the group order (so digests
above the modulus sign successfully rather than failing), and fails with
`InvalidChallenge` exactly when the digest is not 32 bytes wide. -/
theorem sign_challenge_width (k r : Scalar) (challenge : List ℕ) :
    (challenge.length = 32 →
      SchnorrSignature.sign k r challenge
        = Except.ok (SchnorrSignature.signScalar k r
            (scalarFromBytes challenge)) ∧
      (scalarFromBytes challenge).val
        = (challenge.foldr (fun b acc => acc * 256 + b) 0) % ristrettoOrder) ∧
    (challenge.length ≠ 32 →
      SchnorrSignature.sign k r challenge
        = Except.error SchnorrSignatureError.InvalidChallenge) := by
  constructor
  · intro h
    constructor
    · unfold SchnorrSignature.sign
      rw [if_pos h]
    · unfold scalarFromBytes
      exact ZMod.val_natCast _
  · intro h
    unfold SchnorrSignature.sign
    rw [if_neg h]

/-- C9 witness: the 32-byte all-0xff digest — whose value exceeds the group
order — signs successfully. -/
theorem sign_challenge_width_witness :
    SchnorrSignature.sign 1 1 (List.replicate 32 255)
      = Except.ok (SchnorrSignature.signScalar 1 1
          (scalarFromBytes (List.replicate 32 255))) ∧
    (scalarFromBytes (List.replicate 32 255)).val
      = ((List.replicate 32 255).foldr (fun b acc => acc * 256 + b) 0)
        % ristrettoOrder :=
  (sign_challenge_width 1 1 (List.replicate 32 255)).1 (by decide)
